import Mathlib

/-!
# Verification of the data-wiping tool's wipe engine

Shallow embedding of `data_wiping_tool/wipe.py` and `data_wiping_tool/utils.py`.

Conventions of the embedding:
* bytes are `Nat` (values 0..255 in practice); file and device contents are `List Nat`;
* the OS CSPRNG (`secure_random_bytes`, i.e. `os.urandom`) is determinized by a
  stream `rnd : Nat → Nat` giving the byte written at each position of a random pass;
* `random.randint` draws used for sampling offsets are determinized by explicit
  offset lists passed to the functions that consume them;
* the random 16-hex-digit names generated by `_secure_rename_file` are determinized
  by explicit name lists (already joined with the containing directory, mirroring
  `os.path.join(directory, random_name)`);
* SHA-256 (`sha256_file`) is an uninterpreted parameter `hash : List Nat → List Nat`
  applied to a file's content; theorems hold for every choice of `hash`;
* the filesystem is an association list from paths to contents; files in the model
  are always readable and removable (the Python code's permission-failure handlers
  are noted where they are dropped); paths are taken post-normalization
  (`os.path.abspath(os.path.normpath(...))` is applied by the Python entry points
  before any logic modelled here).
-/

namespace DataWipe

/-- A byte string (each entry a byte value). -/
abbrev Bytes := List Nat

/-- Overwrite patterns, from `wipe.py`: `'zero'`, `'one'`, `'random'`. -/
inductive Pattern where
  | zero
  | one
  | random
deriving DecidableEq, Repr

/-- Wipe methods accepted by the engine: `'quick'`, `'nist'`, `'dod'`. -/
inductive Method where
  | quick
  | nist
  | dod
deriving DecidableEq, Repr

/-- The per-method pass table of `_secure_overwrite_file` (wipe.py lines 556-564):
`quick`/`nist` → `[('random', 1)]`, `dod` → `[('zero', 1), ('one', 1), ('random', 1)]`.
`_raw_device_wipe` (lines 187-193) uses the same table on these three methods. -/
def methodPatterns : Method → List (Pattern × Nat)
  | .quick => [(.random, 1)]
  | .nist => [(.random, 1)]
  | .dod => [(.zero, 1), (.one, 1), (.random, 1)]

/-- Pattern data for one chunk: `b'\x00' * n`, `b'\xFF' * n`, or `secure_random_bytes(n)`
(wipe.py lines 576-581), with the CSPRNG determinized by `rnd`. -/
def genBytes (rnd : Nat → Nat) : Pattern → Nat → Bytes
  | .zero, n => List.replicate n 0
  | .one, n => List.replicate n 255
  | .random, n => (List.range n).map rnd

/-! ## Byte-level write plan of one overwrite pass

`_secure_overwrite_file` (wipe.py lines 566-590) writes each pass by seeking to 0
and writing `min(chunk_size, remaining)` bytes until `remaining` is 0, then calls
`f.flush()` and `os.fsync(...)` before the next pass's `open` begins.  The events
below record that loop exactly: `(offset, length)` write records followed by a
flush and an fsync per pass. -/

/-- One event of the overwrite loop of `_secure_overwrite_file`. -/
inductive PatEvent where
  | write (offset : Nat) (len : Nat) (pattern : Pattern)
  | flush
  | fsync
deriving DecidableEq, Repr

/-- The `(offset, length)` chunk sequence written by the inner loop
`while remaining > 0: n = min(chunk_size, remaining); f.write(buf); remaining -= n`
(wipe.py lines 573-586), starting from `off` with `remaining` bytes left.
The Python loop does not terminate when `chunk_size == 0`; the model returns `[]`
in that degenerate case, which no caller reaches (the only call uses the default
`chunk_size=1024*1024`). -/
def chunkWrites (chunkSize off remaining : Nat) : List (Nat × Nat) :=
  if h : chunkSize = 0 ∨ remaining = 0 then []
  else
    let n := min chunkSize remaining
    (off, n) :: chunkWrites chunkSize (off + n) (remaining - n)
termination_by remaining
decreasing_by
  simp only [not_or] at h
  omega

/-- Events of a single pass of `_secure_overwrite_file`: the chunked writes from
offset 0, then the `flush` and `fsync` issued before the file is closed
(wipe.py lines 569-590). -/
def passEvents (p : Pattern) (chunkSize size : Nat) : List PatEvent :=
  (chunkWrites chunkSize 0 size).map (fun w => PatEvent.write w.1 w.2 p) ++
    [PatEvent.flush, PatEvent.fsync]

/-- The full event sequence of the pass loop of `_secure_overwrite_file`
(wipe.py lines 566-590): for each `(pattern_type, pass_count)` of the method's
table, `pass_count` repetitions of the pass. -/
def overwriteEvents (m : Method) (chunkSize size : Nat) : List PatEvent :=
  (methodPatterns m).flatMap fun pc =>
    (List.range pc.2).flatMap fun _ => passEvents pc.1 chunkSize size

/-- Total number of bytes covered by a chunk list. -/
def sumLens (l : List (Nat × Nat)) : Nat := (l.map Prod.snd).sum

/-- The chunk list is contiguous starting at the given offset: each chunk starts
where the previous one ended. -/
def contiguousFrom : Nat → List (Nat × Nat) → Bool
  | _, [] => true
  | off, w :: rest => (w.1 == off) && contiguousFrom (off + w.2) rest

/-! ## Filesystem state

Regular files, as an association list from (normalized, absolute) path to content.
Model-level operations mirror the `os` calls the wipe engine issues: `os.path.exists`
/ `os.path.isfile` on a file path, `os.rename` (POSIX semantics: fails iff the source
is missing, silently replaces an existing destination), and `os.remove`.  Permission
failures are not modelled: files are always readable and, after the `os.chmod` the
code performs, removable. -/

/-- Filesystem state for file-level operations: the regular files. -/
structure St where
  files : List (String × Bytes)
deriving DecidableEq, Repr

/-- Content of the file at `p`, if it exists (`open(p, 'rb')` / `os.path.getsize`). -/
def lookupFile (st : St) (p : String) : Option Bytes :=
  (st.files.find? (fun e => e.1 == p)).map Prod.snd

/-- `os.path.isfile(p)` (equals `os.path.exists(p)` in this files-only state). -/
def fsIsFile (st : St) (p : String) : Bool :=
  (lookupFile st p).isSome

/-- Remove every entry of an association list bound to path `p`. -/
def removeAll : List (String × Bytes) → String → List (String × Bytes)
  | [], _ => []
  | e :: t, p => if e.1 == p then removeAll t p else e :: removeAll t p

/-- Remove every entry at path `p`. -/
def removeF (st : St) (p : String) : St :=
  ⟨removeAll st.files p⟩

/-- Set the content of the file at path `p` (creating or replacing it). -/
def setF (st : St) (p : String) (c : Bytes) : St :=
  ⟨(p, c) :: (removeF st p).files⟩

/-- `os.rename(src, dst)`: fails iff `src` does not exist; replaces `dst`. -/
def renameF (st : St) (src dst : String) : Option St :=
  match lookupFile st src with
  | none => none
  | some c => some (setF (removeF st src) dst c)

/-! ## File-level wipe engine -/

/-- Mutating filesystem events the engine performs.  A `write` records one full
completed overwrite pass of a file (chunk layout is covered by `overwriteEvents`). -/
inductive Ev where
  | write (path : String) (pattern : Pattern)
  | rename (src dst : String)
  | removeFile (path : String)
  | removeDirAttempt (path : String)
  | usbFlashDelegate (path : String)
deriving DecidableEq, Repr

/-- Is the event an overwrite of file contents? -/
def Ev.isWrite : Ev → Bool
  | .write _ _ => true
  | _ => false

/-- `_secure_rename_file` (wipe.py lines 702-724): starting from `path`, rename up
to three times to random 16-hex-digit names in the containing directory; on the
first failing rename, stop (`except: break`); return the final path.  The three
generated names (already joined with the directory) are supplied in `names`. -/
def secure_rename_file (st : St) (path : String) (names : List String) :
    St × String × List Ev :=
  match names with
  | [] => (st, path, [])
  | n :: rest =>
    match renameF st path n with
    | none => (st, path, [])
    | some st' =>
      let r := secure_rename_file st' n rest
      (r.1, r.2.1, Ev.rename path n :: r.2.2)

/-- `_force_remove_file` (wipe.py lines 436-459): if the path exists, clear the
read-only bit and remove it; all failures are swallowed.  Removal of an existing
file always succeeds in the model. -/
def force_remove_file (st : St) (p : String) : St × List Ev :=
  if fsIsFile st p then (removeF st p, [Ev.removeFile p]) else (st, [])

/-- Number of distinct byte values in a sample, `len(set(data))`. -/
def uniqueCount (data : Bytes) : Nat := data.dedup.length

/-- The per-sample check of `_sample_verify_patterns` (wipe.py lines 659-669):
for `dod` the final pattern is random, require more than 12.5% unique bytes
(`unique_bytes > sample_size // 8`); for `quick`/`nist` require more than 25%
(`unique_bytes > sample_size // 4`). -/
def windowPass (method : Method) (sampleSize : Nat) (data : Bytes) : Bool :=
  if method == Method.dod then decide (sampleSize / 8 < uniqueCount data)
  else decide (sampleSize / 4 < uniqueCount data)

/-- `_sample_verify_patterns` (wipe.py lines 642-675) on the file's content:
`sample_size = min(4096, size)`, `min(sample_count, size // sample_size)` samples
at random positions (the `random.randint(0, size - sample_size)` draws are the
entries of `offsets`), each checked with `windowPass`; successful iff
`verified_samples >= sample_count * 0.8`, i.e. at least 8 with the fixed
`sample_count = 10` (`10 * 0.8` is exactly the float `8.0`). -/
def sample_verify_patterns (offsets : List Nat) (content : Bytes) (method : Method) :
    Bool :=
  let size := content.length
  if size = 0 then true
  else
    let sampleSize := min 4096 size
    let draws := offsets.take (min 10 (size / sampleSize))
    let verifiedSamples :=
      draws.countP (fun pos => windowPass method sampleSize ((content.drop pos).take sampleSize))
    decide (8 ≤ verifiedSamples)

/-- Result of `_verify_overwrite` (wipe.py lines 608-640).  The
`file_inaccessible` early return (unreadable file) cannot occur in the model. -/
inductive VerRes where
  | fileDeleted
  | checked (verified hashChanged patternVerified : Bool)
      (originalHash : Option Bytes) (currentHash : Bytes)
deriving DecidableEq, Repr

/-- The composite `verified` flag of a `_verify_overwrite` result. -/
def VerRes.verified : VerRes → Bool
  | .fileDeleted => true
  | .checked v _ _ _ _ => v

/-- `_verify_overwrite` (wipe.py lines 608-640): file gone → verified; otherwise
`hash_changed = (original_hash != current_hash) if original_hash else True`,
pattern sampling when the size is positive, and
`verified = hash_changed and sample_verification`. -/
def verify_overwrite (hash : Bytes → Bytes) (offsets : List Nat) (st : St)
    (path : String) (origHash : Option Bytes) (method : Method) : VerRes :=
  match lookupFile st path with
  | none => .fileDeleted
  | some content =>
    let currentHash := hash content
    let hashChanged :=
      match origHash with
      | some oh => !(oh == currentHash)
      | none => true
    let sampleOk :=
      if 0 < content.length then sample_verify_patterns offsets content method
      else true
    .checked (hashChanged && sampleOk) hashChanged sampleOk origHash currentHash

/-- `_secure_overwrite_file` (wipe.py lines 525-606) at the filesystem level:
early return when the path is missing or the size is 0 (skipping slack wipe and
rename as well); otherwise capture the original hash when verifying, run the
method's overwrite passes (each pass rewrites the whole content; one `Ev.write`
per completed pass), verify, wipe slack space (extend by 512 zero bytes then
truncate back — net content unchanged), and rename the file
(`_secure_rename_file`).  Returns the verification result, as the Python
function does. -/
def secure_overwrite_file (hash : Bytes → Bytes) (rnd : Nat → Nat)
    (offsets : List Nat) (names : List String) (st : St) (path : String)
    (method : Method) (verify : Bool) : St × List Ev × Option VerRes :=
  match lookupFile st path with
  | none => (st, [], none)
  | some content =>
    if content.length = 0 then (st, [], none)
    else
      let origHash := if verify then some (hash content) else none
      let size := content.length
      let afterPasses :=
        (methodPatterns method).foldl
          (fun c pc => (List.range pc.2).foldl (fun _ _ => genBytes rnd pc.1 size) c) content
      let st1 := setF st path afterPasses
      let writeEvs :=
        (methodPatterns method).flatMap
          (fun pc => (List.range pc.2).map (fun _ => Ev.write path pc.1))
      let ver :=
        if verify then some (verify_overwrite hash offsets st1 path origHash method)
        else none
      let r := secure_rename_file st1 path names
      (r.1, writeEvs ++ r.2.2, ver)

/-- The record returned by `wipe_file` (wipe.py lines 762-769). -/
structure FileReport where
  originalHash : Option Bytes
  finalHash : Option Bytes
  verifiedChanged : Bool
  verificationResult : Option VerRes
  methodUsed : Method
  passesCompleted : Nat
deriving DecidableEq, Repr

/-- Typed failures of the engine (`WipeError` messages, wipe.py). -/
inductive WErr where
  | pathNotFound (path : String)
  | notAFile (path : String)
  | notADirectory (path : String)
  | blocked (msg : String)
  | wipeFailed (msg : String)
  | privilegesRequired
deriving DecidableEq, Repr

/-- `wipe_file` (wipe.py lines 726-769): validate the (already normalized) path,
capture the original hash when verifying, call `_secure_overwrite_file` (which
itself renames the file via `_secure_rename_file`), call `_secure_rename_file`
again on the original path, `_force_remove_file` on the returned final path, and
raise when that final path still exists; otherwise return the report with the
constant fields `verified_changed=True` and `passes_completed = 3 if dod else 1`.
`names1` are the random names of the rename inside `_secure_overwrite_file`,
`names2` those of the rename done by `wipe_file` itself.  The state and events
are returned beside the `Except` because a raising Python call leaves its
partial mutations in place. -/
def wipe_file (hash : Bytes → Bytes) (rnd : Nat → Nat) (offsets : List Nat)
    (names1 names2 : List String) (st : St) (path : String) (method : Method)
    (verify : Bool) : St × List Ev × Except WErr FileReport :=
  match lookupFile st path with
  | none => (st, [], .error (.pathNotFound path))
  | some content =>
    let origHash := if verify then some (hash content) else none
    let o := secure_overwrite_file hash rnd offsets names1 st path method verify
    let r := secure_rename_file o.1 path names2
    let f := force_remove_file r.1 r.2.1
    if fsIsFile f.1 r.2.1 then
      (f.1, o.2.1 ++ r.2.2 ++ f.2,
        .error (.wipeFailed ("Failed to delete file: " ++ r.2.1)))
    else
      (f.1, o.2.1 ++ r.2.2 ++ f.2,
        .ok { originalHash := origHash, finalHash := none, verifiedChanged := true,
              verificationResult := o.2.2, methodUsed := method,
              passesCompleted := if method == Method.dod then 3 else 1 })

/-- The file-verification predicate exactly as claim C6 words it (refinement
reading of the spec, for comparison with `verify_overwrite`): verified iff the
file is gone, or the current hash differs from the captured pre-wipe hash and at
least 80% of the up-to-10 sampled windows pass, where a window after a random
final pass passes iff its unique-byte count exceeds 25% of the sample length. -/
def claimC6Verified (hash : Bytes → Bytes) (offsets : List Nat) (st : St)
    (path : String) (origHash : Option Bytes) : Bool :=
  match lookupFile st path with
  | none => true
  | some content =>
    let currentHash := hash content
    let hashChanged :=
      match origHash with
      | some oh => !(oh == currentHash)
      | none => true
    let size := content.length
    let sampleSize := min 4096 size
    let numS := min 10 (size / sampleSize)
    let passed := (offsets.take numS).countP
      (fun pos => decide (sampleSize / 4 < uniqueCount ((content.drop pos).take sampleSize)))
    hashChanged && decide (4 * numS ≤ 5 * passed)

/-! ## Drive-level wipe engine (`wipe_drive` and helpers) -/

/-- The two platforms `wipe.py` distinguishes via `platform.system()`. -/
inductive Platform where
  | windows
  | linux
deriving DecidableEq, Repr

/-- Drive classification of `detect_drive_type` (wipe.py lines 1209-1295).  The
detection itself probes the OS environment; its outcome is a model input. -/
inductive DriveType where
  | hdd
  | ssd
  | usbFlash
  | unknown
deriving DecidableEq, Repr

/-- `system_drives = ['C:\\', 'D:\\']` (wipe.py line 1343). -/
def systemDrivesWindows : List String := ["C:\\", "D:\\"]

/-- The Linux deny list `['/', '/boot', '/home']` (wipe.py line 1347). -/
def systemPartitionsLinux : List String := ["/", "/boot", "/home"]

/-- The safety check of `wipe_drive` (wipe.py lines 1342-1348): on Windows,
`drive_path.upper() in [d.upper() for d in system_drives]`; on Linux,
`drive_path in ['/', '/boot', '/home']`. -/
def blockedCheck (plat : Platform) (p : String) : Bool :=
  match plat with
  | .windows => (systemDrivesWindows.map String.toUpper).contains p.toUpper
  | .linux => systemPartitionsLinux.contains p

/-- The `WipeError` message raised by the safety check (wipe.py lines 1345, 1348). -/
def blockedMsg : Platform → String → String
  | .windows, p => "Cannot wipe system drive: " ++ p
  | .linux, p => "Cannot wipe system partition: " ++ p

/-- The keyword parameters `_secure_overwrite_file` accepts
(`def _secure_overwrite_file(path, method='quick', chunk_size=1024*1024,
verify=True)`, wipe.py line 525). -/
def secureOverwriteFileParams : List String := ["path", "method", "chunk_size", "verify"]

/-- Python call binding for keyword arguments: a call raises `TypeError`
("unexpected keyword argument") unless every keyword is a declared parameter. -/
def kwargsAccepted (params : List String) (kwargs : List String) : Bool :=
  kwargs.all (fun k => params.contains k)

/-- `_force_remove_file_enhanced` (wipe.py lines 1432-1467): clear attributes
and remove the file if it exists; all failures are swallowed.  Removal of an
existing file always succeeds in the model. -/
def force_remove_file_enhanced (st : St) (p : String) : St × List Ev :=
  if fsIsFile st p then (removeF st p, [Ev.removeFile p]) else (st, [])

/-- Per-file status of `_wipe_file_enhanced` (wipe.py lines 1497-1536). -/
inductive EnhStatus where
  | notFound
  | removedWithoutOverwrite (origHash : Option Bytes)
  | wipedAndRemoved (origHash : Option Bytes)
deriving DecidableEq, Repr

/-- `_wipe_file_enhanced` (wipe.py lines 1497-1536): for an existing file,
capture the hash when verifying, then attempt
`_secure_overwrite_file(path, passes=1, pattern=...)`.  That call binds the
keyword arguments `passes` and `pattern`, which `_secure_overwrite_file` does
not declare, so it raises `TypeError` before running; the `except` branch then
force-removes the file and reports status `'removed_without_overwrite'`.
The then-branch models what the code as written would do had the call bound
(the per-method overwrite of the whole content, then force removal, status
`'wiped_and_removed'`); it is provably never taken. -/
def wipe_file_enhanced (hash : Bytes → Bytes) (rnd : Nat → Nat) (st : St)
    (path : String) (method : Method) (verify : Bool) : St × EnhStatus × List Ev :=
  match lookupFile st path with
  | none => (st, .notFound, [])
  | some content =>
    let origHash := if verify then some (hash content) else none
    if kwargsAccepted secureOverwriteFileParams ["passes", "pattern"] then
      let size := content.length
      let st1 :=
        if size = 0 then st
        else setF st path
          ((methodPatterns method).foldl
            (fun c pc => (List.range pc.2).foldl (fun _ _ => genBytes rnd pc.1 size) c)
            content)
      let evs1 :=
        if size = 0 then []
        else (methodPatterns method).flatMap
          (fun pc => (List.range pc.2).map (fun _ => Ev.write path pc.1))
      let f := force_remove_file_enhanced st1 path
      (f.1, .wipedAndRemoved origHash, evs1 ++ f.2)
    else
      let f := force_remove_file_enhanced st path
      (f.1, .removedWithoutOverwrite origHash, f.2)

/-- One entry of the `results` list assembled by `wipe_drive`
(wipe.py lines 1372-1409). -/
inductive DriveEntry where
  | fileRes (path : String) (s : EnhStatus)
  | cleanupRemoved (path : String)
deriving DecidableEq, Repr

/-- The per-file loop of `wipe_drive`'s non-USB branch (wipe.py lines 1372-1394):
visit each walked file in order and record `_wipe_file_enhanced`'s outcome.
(`_wipe_file_enhanced` wraps its whole body in `try/except` and cannot raise, so
the `_force_remove_file_enhanced` fallback of the surrounding `except` is dead.) -/
def driveFileLoop (hash : Bytes → Bytes) (rnd : Nat → Nat) (st : St)
    (walk : List String) (method : Method) (verify : Bool) :
    St × List DriveEntry × List Ev :=
  match walk with
  | [] => (st, [], [])
  | p :: rest =>
    let w := wipe_file_enhanced hash rnd st p method verify
    let r := driveFileLoop hash rnd w.1 rest method verify
    (r.1, DriveEntry.fileRes p w.2.1 :: r.2.1, w.2.2 ++ r.2.2)

/-- Filesystem world with directories, for the folder- and drive-level walks.
`removable` is the environment oracle deciding whether a forced directory
removal (permissions, open handles, ...) succeeds. -/
structure World where
  files : List (String × Bytes)
  dirs : List String
deriving DecidableEq, Repr

/-- Does path `p` lie strictly under directory `d`? -/
def isUnder (d p : String) : Bool := (d ++ "/").isPrefixOf p

/-- Remove the file entries at or under directory `d`. -/
def removeAllUnder (files : List (String × Bytes)) (d : String) :
    List (String × Bytes) :=
  files.filter (fun e => !((e.1 == d) || isUnder d e.1))

/-- `_force_remove_dir` / `_force_remove_dir_enhanced` (wipe.py lines 461-523,
1469-1495): best-effort recursive removal of a directory; success depends on the
OS environment, modelled by the `removable` oracle (all-or-nothing). -/
def forceRemoveDir (removable : String → Bool) (w : World) (d : String) : World :=
  if removable d then
    { files := removeAllUnder w.files d,
      dirs := w.dirs.filter (fun q => !((q == d) || isUnder d q)) }
  else w

/-- The directory-removal loop of `wipe_drive` (wipe.py lines 1397-1406):
`_force_remove_dir_enhanced` on each walked directory, bottom-up.  (The dir
walk order is an environment input; the helper swallows every failure, so the
`except` recording a directory error is dead.) -/
def driveDirLoop (removable : String → Bool) (w : World) (ds : List String) :
    World × List Ev :=
  match ds with
  | [] => (w, [])
  | d :: rest =>
    let r := driveDirLoop removable (forceRemoveDir removable w d) rest
    (r.1, Ev.removeDirAttempt d :: r.2)

/-- `_cleanup_remaining_files` (wipe.py lines 1538-1555): re-walk and
force-remove every file still present, recording `'cleanup_removed'` entries. -/
def cleanupRemaining (st : St) : St × List DriveEntry × List Ev :=
  go st (st.files.map Prod.fst)
where
  /-- Process the snapshot of remaining paths. -/
  go : St → List String → St × List DriveEntry × List Ev
    | st, [] => (st, [], [])
    | st, p :: rest =>
      if fsIsFile st p then
        let r := go (removeF st p) rest
        (r.1, DriveEntry.cleanupRemoved p :: r.2.1, Ev.removeFile p :: r.2.2)
      else
        let r := go st rest
        (r.1, r.2.1, r.2.2)

/-- The outcome record of `verify_drive_erasure` (utils.py lines 84-122) when no
sample files are supplied: count up to 20 of the files remaining under the
drive and how many of them no longer exist (the 5-per-directory sampling of the
Python walk is flattened to a 20-file cap in this directory-free state). -/
structure DriveVerification where
  driveAccessible : Bool
  filesChecked : Nat
  filesVerified : Nat
deriving DecidableEq, Repr

/-- `verify_drive_erasure` on the model state (read-only). -/
def verify_drive_erasure (st : St) : DriveVerification :=
  let remaining := (st.files.map Prod.fst).take 20
  { driveAccessible := true,
    filesChecked := remaining.length,
    filesVerified := remaining.countP (fun p => !(fsIsFile st p)) }

/-- The dictionary returned by `wipe_drive`'s non-USB branch
(wipe.py lines 1420-1430). -/
structure DriveReport where
  drivePath : String
  method : Method
  verifiedFlag : Bool
  results : List DriveEntry
  totalFilesFound : Nat
  verification : Option DriveVerification
  driveType : DriveType
deriving DecidableEq, Repr

/-- `wipe_drive`'s result: the standard (non-USB) report, or the delegation to
`_usb_flash_secure_wipe` (wipe.py line 1359), whose payload no claim concerns
and which is left opaque. -/
inductive DriveOutcome where
  | standard (r : DriveReport)
  | usbFlashOutcome (drivePath : String)
deriving DecidableEq, Repr

/-- `wipe_drive` (wipe.py lines 1333-1430) on an already-normalized path:
existence check, hard-coded system-drive safety check (raising before any
mutation), drive-type dispatch (USB flash → `_usb_flash_secure_wipe`), and
otherwise the non-USB branch: count the walked files, run the per-file loop,
the directory-removal loop, the cleanup sweep, and the optional
`verify_drive_erasure`.  The walk orders are environment inputs. -/
def wipe_drive (hash : Bytes → Bytes) (rnd : Nat → Nat) (plat : Platform)
    (removable : String → Bool) (w : World) (drivePath : String)
    (driveType : DriveType) (fileWalk dirWalk : List String) (method : Method)
    (verify : Bool) : Except WErr DriveOutcome × List Ev :=
  if !(fsIsFile ⟨w.files⟩ drivePath || w.dirs.contains drivePath) then
    (.error (.pathNotFound drivePath), [])
  else if blockedCheck plat drivePath then
    (.error (.blocked (blockedMsg plat drivePath)), [])
  else if driveType == DriveType.usbFlash then
    (.ok (.usbFlashOutcome drivePath), [Ev.usbFlashDelegate drivePath])
  else
    let totalFiles := fileWalk.length
    let l := driveFileLoop hash rnd ⟨w.files⟩ fileWalk method verify
    let d := driveDirLoop removable { files := l.1.files, dirs := w.dirs } dirWalk
    let c := cleanupRemaining ⟨d.1.files⟩
    let ver := if verify then some (verify_drive_erasure c.1) else none
    (.ok (.standard
      { drivePath := drivePath, method := method, verifiedFlag := verify,
        results := l.2.1 ++ c.2.1, totalFilesFound := totalFiles,
        verification := ver, driveType := driveType }),
      l.2.2 ++ d.2 ++ c.2.2)

/-! ## Raw device wipe (`_raw_device_wipe`, `_verify_raw_device_wipe`) -/

/-- The per-window check of `_verify_raw_device_wipe` (wipe.py lines 417-423,
Linux branch; the Windows branch at lines 387-393 is identical): `'zero'` →
all-zeros, `'one'` → all-0xFF, `'random'` → neither all-zeros nor all-0xFF
(`data != b'\x00' * len(data) and data != b'\xFF' * len(data)`). -/
def devWindowPass (expected : Pattern) (data : Bytes) : Bool :=
  match expected with
  | .zero => data == List.replicate data.length 0
  | .one => data == List.replicate data.length 255
  | .random =>
    !(data == List.replicate data.length 0) && !(data == List.replicate data.length 255)

/-- The result dictionary of `_verify_raw_device_wipe` (wipe.py lines 395-401). -/
structure DevVerRes where
  verified : Bool
  samplesVerified : Nat
  totalSamples : Nat
deriving DecidableEq, Repr

/-- `_verify_raw_device_wipe` (wipe.py lines 333-434, Linux branch): with
`sample_size = min(1024*1024, total_size // 100)`, take `sample_count = 10`
samples; each draw `d` (from `random.randint(0, total_size - sample_size)`) is
aligned down to a 512-byte sector boundary, `sample_size` bytes are read there
and checked with `devWindowPass` against the final pass's pattern.  The outcome
is `verified = (verified_samples / 10 >= 0.8)`, i.e. at least 8 (`k/10 ≥ 0.8`
holds for the float ratio exactly when `k ≥ 8`). -/
def verify_raw_device_wipe (device : Bytes) (draws : List Nat)
    (expected : Pattern) : DevVerRes :=
  let totalSize := device.length
  let sampleSize := min (1024 * 1024) (totalSize / 100)
  let passed := (draws.take 10).countP
    (fun d => devWindowPass expected ((device.drop (d / 512 * 512)).take sampleSize))
  { verified := decide (8 ≤ passed), samplesVerified := passed, totalSamples := 10 }

/-- The device-window rule exactly as claim C9 words it: after `dod`'s final
random pass a window passes iff its unique-byte count exceeds 12.5% of the
window length (refinement reading of the spec, for comparison with
`devWindowPass`). -/
def claimC9WindowPass (sampleSize : Nat) (data : Bytes) : Bool :=
  decide (sampleSize / 8 < uniqueCount data)

/-- Device verification as claim C9 words it for a `dod` wipe (final pass
random): ≥ 80% of the 10 sampled windows must pass `claimC9WindowPass`. -/
def claimC9Verified (device : Bytes) (draws : List Nat) : Bool :=
  let totalSize := device.length
  let sampleSize := min (1024 * 1024) (totalSize / 100)
  let passed := (draws.take 10).countP
    (fun d => claimC9WindowPass sampleSize ((device.drop (d / 512 * 512)).take sampleSize))
  decide (8 ≤ passed)

/-- Events of the raw-device path. -/
inductive DevEv where
  | openDevice (path : String)
  | writeChunk (offset : Nat) (len : Nat) (pattern : Pattern)
  | flushDevice
deriving DecidableEq, Repr

/-- The result dictionary of `_raw_device_wipe` (wipe.py lines 320-328). -/
structure DevReport where
  devicePath : String
  totalSize : Nat
  totalSectors : Nat
  passesCompleted : Nat
  verification : Option DevVerRes
deriving DecidableEq, Repr

/-- `_raw_device_wipe` (wipe.py lines 169-331, Linux branch): raise the
privileges `WipeError` before anything else when not admin (the check precedes
the `try` block and even the size query; no open, write or flush happens);
otherwise query the size, open the device, and for each pass of the method's
table write sequential 1 MiB chunks from offset 0 over the whole size, then
flush and fsync; finally verify a sample against the last pattern when asked.
Returns the final device content beside the report. -/
def raw_device_wipe (isAdmin : Bool) (rnd : Nat → Nat) (devicePath : String)
    (device : Bytes) (draws : List Nat) (method : Method) (verify : Bool) :
    Except WErr (Bytes × DevReport) × List DevEv :=
  if !isAdmin then (.error .privilegesRequired, [])
  else
    let totalSize := device.length
    let totalSectors := totalSize / 512
    let patterns := methodPatterns method
    let finalDevice :=
      patterns.foldl
        (fun d pc => (List.range pc.2).foldl (fun _ _ => genBytes rnd pc.1 totalSize) d)
        device
    let passEvs :=
      patterns.flatMap (fun pc =>
        (List.range pc.2).flatMap (fun _ =>
          (chunkWrites (1024 * 1024) 0 totalSize).map
            (fun wr => DevEv.writeChunk wr.1 wr.2 pc.1) ++ [DevEv.flushDevice]))
    let ver :=
      if verify then
        some (verify_raw_device_wipe finalDevice draws (patterns.getLastD (.random, 1)).1)
      else none
    (.ok (finalDevice,
      { devicePath := devicePath, totalSize := totalSize, totalSectors := totalSectors,
        passesCompleted := patterns.length, verification := ver }),
      DevEv.openDevice devicePath :: passEvs)

/-! ## Folder wipe (`wipe_folder`) -/

/-- Is the event a directory-removal attempt? -/
def Ev.isDirAttempt : Ev → Bool
  | .removeDirAttempt _ => true
  | _ => false

/-- One entry of the `results` list of `wipe_folder` (wipe.py lines 788-822):
a per-file outcome `{'path': ..., **result}`, a per-file error
`{'path': ..., 'error': ...}`, or the caught root-removal error appended by the
surrounding `except` (lines 818-822). -/
inductive FolderEntry where
  | fileOk (path : String) (r : FileReport)
  | fileErr (path : String) (e : WErr)
  | rootErr (path : String) (msg : String)
deriving DecidableEq, Repr

/-- The path an entry is tagged with. -/
def FolderEntry.path : FolderEntry → String
  | .fileOk p _ => p
  | .fileErr p _ => p
  | .rootErr p _ => p

/-- The first pass of `wipe_folder` (wipe.py lines 790-802): visit every walked
file, call `wipe_file` on it, and record its outcome or error; the walk
continues past per-file failures.  `names` supplies, per file, the two rename
name triples `wipe_file` consumes. -/
def folderFileLoop (hash : Bytes → Bytes) (rnd : Nat → Nat) (offsets : List Nat)
    (names : String → List String × List String) (st : St) (walk : List String)
    (method : Method) (verify : Bool) : St × List FolderEntry × List Ev :=
  match walk with
  | [] => (st, [], [])
  | p :: rest =>
    let wfr := wipe_file hash rnd offsets (names p).1 (names p).2 st p method verify
    let entry :=
      match wfr.2.2 with
      | .ok r => FolderEntry.fileOk p r
      | .error e => FolderEntry.fileErr p e
    let r := folderFileLoop hash rnd offsets names wfr.1 rest method verify
    (r.1, entry :: r.2.1, wfr.2.1 ++ r.2.2)

/-- `wipe_folder` (wipe.py lines 771-824) on an already-normalized root:
existence and is-directory checks; first pass wiping every walked file
(`folderFileLoop`); second pass removing the walked subdirectories bottom-up
(the same force-removal loop as `wipe_drive`, here `driveDirLoop` over
`_force_remove_dir`); then `_force_remove_dir` on the root itself; finally, if
the root still exists, the raised `WipeError` is caught by `wipe_folder`'s own
`except` and recorded as an error entry for the root — the function still
returns the results list normally. -/
def wipe_folder (hash : Bytes → Bytes) (rnd : Nat → Nat) (offsets : List Nat)
    (names : String → List String × List String) (removable : String → Bool)
    (w : World) (root : String) (fileWalk dirWalk : List String)
    (method : Method) (verify : Bool) :
    Except WErr (World × List FolderEntry × List Ev) :=
  if !(fsIsFile ⟨w.files⟩ root || w.dirs.contains root) then
    .error (.pathNotFound root)
  else if !(w.dirs.contains root) then
    .error (.notADirectory root)
  else
    let l := folderFileLoop hash rnd offsets names ⟨w.files⟩ fileWalk method verify
    let d := driveDirLoop removable { files := l.1.files, dirs := w.dirs } dirWalk
    let w2 := forceRemoveDir removable d.1 root
    let evs := l.2.2 ++ d.2 ++ [Ev.removeDirAttempt root]
    if fsIsFile ⟨w2.files⟩ root || w2.dirs.contains root then
      .ok (w2, l.2.1 ++
        [FolderEntry.rootErr root ("Failed to completely remove directory: " ++ root)],
        evs)
    else
      .ok (w2, l.2.1, evs)

/-! ## Theorems -/

theorem sumLens_chunkWrites (chunkSize : Nat) (hc : chunkSize ≠ 0) :
    ∀ remaining off, sumLens (chunkWrites chunkSize off remaining) = remaining := by
  intro remaining
  induction remaining using Nat.strong_induction_on with
  | _ remaining ih =>
    intro off
    by_cases h : remaining = 0
    · rw [chunkWrites, dif_pos (Or.inr h), h]
      rfl
    · rw [chunkWrites, dif_neg (by simp [hc, h])]
      have hlt : remaining - min chunkSize remaining < remaining := by omega
      simp only [sumLens, List.map_cons, List.sum_cons]
      have := ih _ hlt (off + min chunkSize remaining)
      simp only [sumLens] at this
      rw [this]
      omega

theorem contiguousFrom_chunkWrites (chunkSize : Nat) :
    ∀ remaining off, contiguousFrom off (chunkWrites chunkSize off remaining) = true := by
  intro remaining
  induction remaining using Nat.strong_induction_on with
  | _ remaining ih =>
    intro off
    by_cases h : chunkSize = 0 ∨ remaining = 0
    · rw [chunkWrites, dif_pos h]
      rfl
    · rw [chunkWrites, dif_neg h]
      simp only [not_or] at h
      have hlt : remaining - min chunkSize remaining < remaining := by omega
      simp only [contiguousFrom, beq_self_eq_true, Bool.true_and]
      exact ih _ hlt _

theorem chunkWrites_len_bound (chunkSize : Nat) :
    ∀ remaining off, ∀ w ∈ chunkWrites chunkSize off remaining, 0 < w.2 ∧ w.2 ≤ chunkSize := by
  intro remaining
  induction remaining using Nat.strong_induction_on with
  | _ remaining ih =>
    intro off w hw
    by_cases h : chunkSize = 0 ∨ remaining = 0
    · rw [chunkWrites, dif_pos h] at hw
      simp at hw
    · rw [chunkWrites, dif_neg h] at hw
      simp only [not_or] at h
      have hlt : remaining - min chunkSize remaining < remaining := by omega
      rcases List.mem_cons.mp hw with rfl | hw'
      · refine ⟨?_, min_le_left _ _⟩
        simp only [lt_min_iff]
        omega
      · exact ih _ hlt _ w hw'

/-- C1. For a wipe of an accessible regular file of size > 0, the overwrite of
`_secure_overwrite_file` performs exactly the pass sequence `quick`→[random],
`nist`→[random], `dod`→[zero (0x00), one (0xFF), random], in that order; each pass
writes exactly `size` bytes starting at offset 0 in contiguous chunks of at most
1 MiB, and each pass's flush and fsync complete before the next pass begins
(each pass's event block ends with `flush, fsync`). -/
theorem c1_pass_program (m : Method) (size : Nat) (hs : 0 < size) :
    (methodPatterns m).map Prod.fst =
      (match m with
       | .quick => [Pattern.random]
       | .nist => [Pattern.random]
       | .dod => [Pattern.zero, Pattern.one, Pattern.random]) ∧
    overwriteEvents m (1024 * 1024) size =
      (methodPatterns m).flatMap (fun pc => passEvents pc.1 (1024 * 1024) size) ∧
    (∀ p, passEvents p (1024 * 1024) size =
      (chunkWrites (1024 * 1024) 0 size).map (fun w => PatEvent.write w.1 w.2 p) ++
        [PatEvent.flush, PatEvent.fsync]) ∧
    sumLens (chunkWrites (1024 * 1024) 0 size) = size ∧
    contiguousFrom 0 (chunkWrites (1024 * 1024) 0 size) = true ∧
    (∀ w ∈ chunkWrites (1024 * 1024) 0 size, 0 < w.2 ∧ w.2 ≤ 1024 * 1024) := by
  refine ⟨?_, ?_, fun p => rfl, ?_, ?_, ?_⟩
  · cases m <;> rfl
  · have h1 : List.range 1 = [0] := rfl
    cases m <;> simp [overwriteEvents, methodPatterns, h1]
  · exact sumLens_chunkWrites _ (by norm_num) size 0
  · exact contiguousFrom_chunkWrites _ size 0
  · exact chunkWrites_len_bound _ size 0

/-- Witness for `c1_pass_program` at method `dod` and size 2 MiB + 3 bytes. -/
theorem c1_pass_program_witness :
    0 < 2 * 1024 * 1024 + 3 ∧
      (methodPatterns Method.dod).map Prod.fst =
        [Pattern.zero, Pattern.one, Pattern.random] ∧
      sumLens (chunkWrites (1024 * 1024) 0 (2 * 1024 * 1024 + 3)) = 2 * 1024 * 1024 + 3 :=
  ⟨by norm_num,
   (c1_pass_program Method.dod (2 * 1024 * 1024 + 3) (by norm_num)).1,
   (c1_pass_program Method.dod (2 * 1024 * 1024 + 3) (by norm_num)).2.2.2.1⟩

theorem lookupFile_setF_self (st : St) (p : String) (c : Bytes) :
    lookupFile (setF st p c) p = some c := by
  simp [lookupFile, setF, List.find?]

theorem lookupFile_removeF_self (st : St) (p : String) :
    lookupFile (removeF st p) p = none := by
  simp only [lookupFile, removeF]
  induction st.files with
  | nil => rfl
  | cons e t ih =>
    rw [removeAll]
    by_cases h : (e.1 == p) = true
    · rw [if_pos h]
      exact ih
    · rw [if_neg h, List.find?_cons_of_neg _ (by simpa using h)]
      exact ih

theorem lookupFile_setF_ne (st : St) (p q : String) (c : Bytes) (h : ¬(q == p)) :
    lookupFile (setF st p c) q = lookupFile (removeF st p) q := by
  simp only [lookupFile, setF, List.find?]
  have : ((p, c).1 == q) = false := by
    by_cases hq : p = q
    · exact absurd (by simp [hq]) h
    · simp [hq]
  simp [this]

theorem lookupFile_removeF_ne (st : St) (p q : String) (h : ¬(q == p)) :
    lookupFile (removeF st p) q = lookupFile st q := by
  have hqp : q ≠ p := fun hq => h (by simp [hq])
  simp only [lookupFile, removeF]
  induction st.files with
  | nil => rfl
  | cons e t ih =>
    rw [removeAll]
    by_cases he : (e.1 == p) = true
    · have hne : (e.1 == q) = false := by
        rw [beq_eq_false_iff_ne, eq_of_beq he]
        exact fun hpq => hqp hpq.symm
      rw [if_pos he, ih, List.find?_cons_of_neg _ (by simp [hne])]
    · rw [if_neg he]
      by_cases hq : (e.1 == q) = true
      · rw [List.find?_cons_of_pos (p := fun x : String × Bytes => x.1 == q) _ hq,
          List.find?_cons_of_pos (p := fun x : String × Bytes => x.1 == q) _ hq]
      · rw [List.find?_cons_of_neg _ (by simpa using hq),
          List.find?_cons_of_neg _ (by simpa using hq), ih]

/-- C10. Whenever `wipe_file` returns normally, the returned record has
`verified_changed = True` and `passes_completed = 3` for method `dod` and `1`
otherwise — constants that do not depend on the actual verification result, on
the file's size, or on the `verify` flag (wipe.py lines 762-769). -/
theorem c10_report_constants (hash : Bytes → Bytes) (rnd : Nat → Nat)
    (offsets : List Nat) (names1 names2 : List String) (st : St) (path : String)
    (method : Method) (verify : Bool) (r : FileReport)
    (h : (wipe_file hash rnd offsets names1 names2 st path method verify).2.2 =
      Except.ok r) :
    r.verifiedChanged = true ∧
      r.passesCompleted = (if method = Method.dod then 3 else 1) := by
  unfold wipe_file at h
  cases hc : lookupFile st path with
  | none =>
    rw [hc] at h
    simp at h
  | some content =>
    rw [hc] at h
    simp only at h
    split at h
    · simp at h
    · simp only [Except.ok.injEq] at h
      rw [← h]
      cases method <;> simp

/-- Witness for `c10_report_constants`: a concrete successful run of `wipe_file`
on a one-byte file. -/
theorem c10_report_constants_witness :
    ({ originalHash := some [65], finalHash := none, verifiedChanged := true,
        verificationResult := some (VerRes.checked false true false (some [65]) [7]),
        methodUsed := Method.quick, passesCompleted := 1 } : FileReport).verifiedChanged
        = true ∧
      ({ originalHash := some [65], finalHash := none, verifiedChanged := true,
            verificationResult := some (VerRes.checked false true false (some [65]) [7]),
            methodUsed := Method.quick, passesCompleted := 1 } : FileReport).passesCompleted
        = 1 :=
  c10_report_constants id (fun _ => 7) [0] ["/d/a1", "/d/a2", "/d/a3"]
    ["/d/b1", "/d/b2", "/d/b3"] ⟨[("/d/f", [65])]⟩ "/d/f" Method.quick true
    _ (by rfl)

/-- C2 (code bug).  On a one-byte file whose six random rename names all succeed,
`wipe_file` returns normally, the original path is gone, but the overwritten file
still exists at `/d/a3` — the name produced by the rename performed inside
`_secure_overwrite_file`.  `wipe_file`'s own `_secure_rename_file(path)` call
fails at once (the original path no longer exists), so `final_path` is the
original path and both `_force_remove_file` and the final existence check look
only there: the file is never unlinked, yet no `DeleteFailed` error is raised. -/
theorem c2_deletion_invariant_violated :
    (wipe_file id (fun _ => 7) [0] ["/d/a1", "/d/a2", "/d/a3"]
        ["/d/b1", "/d/b2", "/d/b3"] ⟨[("/d/f", [65])]⟩ "/d/f" Method.quick true).2.2.isOk
      = true ∧
    fsIsFile (wipe_file id (fun _ => 7) [0] ["/d/a1", "/d/a2", "/d/a3"]
        ["/d/b1", "/d/b2", "/d/b3"] ⟨[("/d/f", [65])]⟩ "/d/f" Method.quick true).1 "/d/a3"
      = true ∧
    fsIsFile (wipe_file id (fun _ => 7) [0] ["/d/a1", "/d/a2", "/d/a3"]
        ["/d/b1", "/d/b2", "/d/b3"] ⟨[("/d/f", [65])]⟩ "/d/f" Method.quick true).1 "/d/f"
      = false :=
  ⟨rfl, rfl, rfl⟩

theorem secure_rename_file_three (st : St) (path n1 n2 n3 : String) (c : Bytes)
    (h : lookupFile st path = some c) :
    secure_rename_file st path [n1, n2, n3] =
      (setF (removeF (setF (removeF (setF (removeF st path) n1 c) n1) n2 c) n2) n3 c,
        n3, [Ev.rename path n1, Ev.rename n1 n2, Ev.rename n2 n3]) := by
  simp [secure_rename_file, renameF, h, lookupFile_setF_self]

/-- C5 (amended). For a zero-byte file, `wipe_file` skips all overwrite passes
(`_secure_overwrite_file` returns before writing anything: no write event occurs)
but still performs the rename-to-random-name and unlink steps (the rename chain
of `wipe_file`'s own `_secure_rename_file` call and the `_force_remove_file`
unlink, after which the file is gone) — and the returned report has
`passes_completed` equal to the constant `3 if method == 'dod' else 1`, not 0. -/
theorem c5_zero_byte_file (hash : Bytes → Bytes) (rnd : Nat → Nat)
    (offsets : List Nat) (names1 : List String) (n1 n2 n3 : String) (st : St)
    (path : String) (method : Method) (verify : Bool)
    (h : lookupFile st path = some []) :
    (wipe_file hash rnd offsets names1 [n1, n2, n3] st path method verify).2.1 =
        [Ev.rename path n1, Ev.rename n1 n2, Ev.rename n2 n3, Ev.removeFile n3] ∧
      (∀ e ∈ (wipe_file hash rnd offsets names1 [n1, n2, n3] st path method verify).2.1,
        e.isWrite = false) ∧
      (wipe_file hash rnd offsets names1 [n1, n2, n3] st path method verify).2.2 =
        Except.ok
          { originalHash := if verify then some (hash []) else none,
            finalHash := none, verifiedChanged := true, verificationResult := none,
            methodUsed := method,
            passesCompleted := if method = Method.dod then 3 else 1 } ∧
      fsIsFile (wipe_file hash rnd offsets names1 [n1, n2, n3] st path method verify).1 n3
        = false := by
  have ho : secure_overwrite_file hash rnd offsets names1 st path method verify
      = (st, [], none) := by
    simp [secure_overwrite_file, h]
  have hr := secure_rename_file_three st path n1 n2 n3 [] h
  have hw : wipe_file hash rnd offsets names1 [n1, n2, n3] st path method verify =
      (removeF (setF (removeF (setF (removeF (setF (removeF st path) n1 []) n1) n2 []) n2) n3 []) n3,
        [Ev.rename path n1, Ev.rename n1 n2, Ev.rename n2 n3, Ev.removeFile n3],
        Except.ok
          { originalHash := if verify then some (hash []) else none,
            finalHash := none, verifiedChanged := true, verificationResult := none,
            methodUsed := method,
            passesCompleted := if method = Method.dod then 3 else 1 }) := by
    unfold wipe_file
    simp only [h, ho, hr, force_remove_file, fsIsFile, lookupFile_setF_self,
      Option.isSome_some, if_true, lookupFile_removeF_self, Option.isSome_none,
      Bool.false_eq_true, if_false]
    cases method <;> simp
  rw [hw]
  refine ⟨rfl, ?_, rfl, ?_⟩
  · intro e he
    simp only [List.mem_cons, List.not_mem_nil, or_false] at he
    rcases he with rfl | rfl | rfl | rfl <;> rfl
  · simp [fsIsFile, lookupFile_removeF_self]

/-- Witness for `c5_zero_byte_file`: a concrete zero-byte file wipe. -/
theorem c5_zero_byte_file_witness :
    (wipe_file id (fun _ => 7) [] [] ["/a", "/b", "/c"] ⟨[("/f", [])]⟩ "/f"
        Method.quick true).2.2 =
      Except.ok
        { originalHash := some [], finalHash := none, verifiedChanged := true,
          verificationResult := none, methodUsed := Method.quick, passesCompleted := 1 } :=
  (c5_zero_byte_file id (fun _ => 7) [] [] "/a" "/b" "/c" ⟨[("/f", [])]⟩ "/f"
    Method.quick true (by rfl)).2.2.1

/-- C5 counterexample to the claim as stated: on a zero-byte file the returned
report has `passes_completed = 1` for method `quick` (and 3 for `dod`), never 0. -/
theorem c5_passes_completed_not_zero :
    (match (wipe_file id (fun _ => 7) [] [] ["/a", "/b", "/c"] ⟨[("/f", [])]⟩ "/f"
        Method.quick true).2.2 with
      | Except.ok r => r.passesCompleted
      | Except.error _ => 0) = 1 := by
  rfl

set_option maxRecDepth 4000 in
/-- C6 counterexample: a 100-byte file holding the bytes 0..99, a captured
pre-wipe hash that differs from the current one, and one sampled window that
passes the claim's 25%-unique rule (all 100 bytes distinct), so the claim says
`verified = true`; but `_verify_overwrite` returns `verified = false`, because
`_sample_verify_patterns` demands at least `8 = 10 * 0.8` passing samples even
though only `min(10, size // sample_size) = 1` sample is taken. -/
theorem c6_counterexample :
    claimC6Verified id [0] ⟨[("/f", List.range 100)]⟩ "/f" (some [255]) = true ∧
      (verify_overwrite id [0] ⟨[("/f", List.range 100)]⟩ "/f" (some [255])
          Method.quick).verified = false := by
  constructor
  · decide
  · decide

/-- C6 (amended). `_verify_overwrite`: if the file no longer exists the result
has `verified = true`; otherwise `verified = true` iff the current hash differs
from the captured pre-wipe hash (trivially when none was captured) and — unless
the file is empty — at least 8 (that is, 80% of the fixed `sample_count = 10`,
even when fewer windows are sampled) of the `min(10, size // sample_size)`
sampled windows pass, where a window passes iff its unique-byte count exceeds
12.5% of the sample length for method `dod` and 25% otherwise. -/
theorem c6_verify_overwrite_characterization (hash : Bytes → Bytes)
    (offsets : List Nat) (st : St) (path : String) (origHash : Option Bytes)
    (method : Method) :
    (lookupFile st path = none →
        (verify_overwrite hash offsets st path origHash method).verified = true) ∧
      (∀ content, lookupFile st path = some content →
        ((verify_overwrite hash offsets st path origHash method).verified = true ↔
          (match origHash with
            | some oh => oh ≠ hash content
            | none => True) ∧
          (content = [] ∨
            8 ≤ (offsets.take (min 10 (content.length / min 4096 content.length))).countP
              (fun pos => windowPass method (min 4096 content.length)
                ((content.drop pos).take (min 4096 content.length)))))) := by
  constructor
  · intro h
    simp [verify_overwrite, h, VerRes.verified]
  · intro content hc
    simp only [verify_overwrite, hc, VerRes.verified]
    by_cases hz : content = []
    · subst hz
      cases origHash with
      | none => simp
      | some oh =>
        simp [List.take_nil, List.drop_nil, uniqueCount]
    · have hweb : content.length ≠ 0 := by
        simpa using fun hl => hz (List.eq_nil_of_length_eq_zero hl)
      rw [if_pos (Nat.pos_of_ne_zero hweb)]
      simp only [sample_verify_patterns, hweb, if_false]
      cases origHash with
      | none => simp [hz]
      | some oh =>
        simp [hz, Bool.and_eq_true, decide_eq_true_eq, bne_iff_ne]

/-- Witness for `c6_verify_overwrite_characterization`: a missing file verifies. -/
theorem c6_verify_overwrite_characterization_witness :
    (verify_overwrite id [] ⟨[]⟩ "/f" none Method.quick).verified = true :=
  (c6_verify_overwrite_characterization id [] ⟨[]⟩ "/f" none Method.quick).1 (by rfl)

/-- C3. For every target equal (case-insensitively on Windows) to an entry of the
hard-coded system deny set (`'/'`, `'/boot'`, `'/home'` on Linux; the OS drive
letters `C:\`/`D:\` on Windows), `wipe_drive` fails with the blocked-target
`WipeError` whose message names the target, and performs no writes or any other
mutating side effect before failing (the event trace is empty). -/
theorem c3_blocked_targets (hash : Bytes → Bytes) (rnd : Nat → Nat)
    (plat : Platform) (removable : String → Bool) (w : World) (drivePath : String)
    (driveType : DriveType) (fileWalk dirWalk : List String) (method : Method)
    (verify : Bool)
    (hex : (fsIsFile ⟨w.files⟩ drivePath || w.dirs.contains drivePath) = true)
    (hden : (plat = Platform.linux ∧ drivePath ∈ systemPartitionsLinux) ∨
      (plat = Platform.windows ∧
        drivePath.toUpper ∈ systemDrivesWindows.map String.toUpper)) :
    wipe_drive hash rnd plat removable w drivePath driveType fileWalk dirWalk
        method verify =
      (Except.error (WErr.blocked (blockedMsg plat drivePath)), []) ∧
    (∃ pre, blockedMsg plat drivePath = pre ++ drivePath) := by
  have hb : blockedCheck plat drivePath = true := by
    rcases hden with ⟨hp, hmem⟩ | ⟨hp, hmem⟩ <;> subst hp <;>
      simp [blockedCheck, List.contains, hmem]
  constructor
  · unfold wipe_drive
    rw [if_neg (by rw [hex]; simp), if_pos hb]
  · cases plat
    · exact ⟨"Cannot wipe system drive: ", rfl⟩
    · exact ⟨"Cannot wipe system partition: ", rfl⟩

/-- Witness for `c3_blocked_targets`: wiping `/` on Linux is refused. -/
theorem c3_blocked_targets_witness :
    wipe_drive id (fun _ => 0) Platform.linux (fun _ => true)
        ⟨[], ["/"]⟩ "/" DriveType.hdd [] [] Method.quick true =
      (Except.error (WErr.blocked "Cannot wipe system partition: /"), []) :=
  ((c3_blocked_targets id (fun _ => 0) Platform.linux (fun _ => true)
      ⟨[], ["/"]⟩ "/" DriveType.hdd [] [] Method.quick true (by rfl)
      (Or.inl ⟨rfl, by simp [systemPartitionsLinux]⟩)).1)

theorem wipe_file_enhanced_notFound (hash : Bytes → Bytes) (rnd : Nat → Nat)
    (st : St) (p : String) (method : Method) (verify : Bool)
    (h : lookupFile st p = none) :
    wipe_file_enhanced hash rnd st p method verify = (st, .notFound, []) := by
  simp [wipe_file_enhanced, h]

theorem wipe_file_enhanced_removes (hash : Bytes → Bytes) (rnd : Nat → Nat)
    (st : St) (p : String) (method : Method) (verify : Bool) (c : Bytes)
    (h : lookupFile st p = some c) :
    wipe_file_enhanced hash rnd st p method verify =
      (removeF st p,
        .removedWithoutOverwrite (if verify then some (hash c) else none),
        [Ev.removeFile p]) := by
  have hkw : kwargsAccepted secureOverwriteFileParams ["passes", "pattern"] = false := rfl
  simp [wipe_file_enhanced, h, hkw, force_remove_file_enhanced, fsIsFile]

theorem driveFileLoop_spec (hash : Bytes → Bytes) (rnd : Nat → Nat)
    (method : Method) (verify : Bool) :
    ∀ walk st,
      (∀ e ∈ (driveFileLoop hash rnd st walk method verify).2.2, e.isWrite = false) ∧
      (∀ p ∈ walk, fsIsFile st p = true →
        (∃ oh, DriveEntry.fileRes p (EnhStatus.removedWithoutOverwrite oh) ∈
            (driveFileLoop hash rnd st walk method verify).2.1) ∧
          Ev.removeFile p ∈ (driveFileLoop hash rnd st walk method verify).2.2) := by
  intro walk
  induction walk with
  | nil =>
    intro st
    constructor
    · intro e he
      simp [driveFileLoop] at he
    · intro p hp
      simp at hp
  | cons q rest ih =>
    intro st
    cases hq : lookupFile st q with
    | none =>
      have hwq := wipe_file_enhanced_notFound hash rnd st q method verify hq
      constructor
      · intro e he
        simp only [driveFileLoop, hwq, List.nil_append] at he
        exact (ih st).1 e he
      · intro p hp hex
        rcases List.mem_cons.mp hp with rfl | hp'
        · rw [fsIsFile, hq] at hex
          simp at hex
        · have hrest := (ih st).2 p hp' hex
          simp only [driveFileLoop, hwq, List.nil_append]
          exact ⟨⟨hrest.1.choose, List.mem_cons_of_mem _ hrest.1.choose_spec⟩, hrest.2⟩
    | some c =>
      have hwq := wipe_file_enhanced_removes hash rnd st q method verify c hq
      constructor
      · intro e he
        simp only [driveFileLoop, hwq, List.cons_append, List.nil_append,
          List.mem_cons] at he
        rcases he with rfl | he'
        · rfl
        · exact (ih _).1 e he'
      · intro p hp hex
        simp only [driveFileLoop, hwq, List.cons_append, List.nil_append]
        by_cases hpq : (p == q) = true
        · have hpq' : p = q := eq_of_beq hpq
          subst hpq'
          exact ⟨⟨_, List.mem_cons_self _ _⟩, List.mem_cons_self _ _⟩
        · rcases List.mem_cons.mp hp with rfl | hp'
          · simp at hpq
          · have hex' : fsIsFile (removeF st q) p = true := by
              rw [fsIsFile, lookupFile_removeF_ne st q p hpq]
              exact hex
            have hrest := (ih _).2 p hp' hex'
            exact ⟨⟨hrest.1.choose, List.mem_cons_of_mem _ hrest.1.choose_spec⟩,
              List.mem_cons_of_mem _ hrest.2⟩

theorem driveDirLoop_no_write (removable : String → Bool) :
    ∀ ds w, ∀ e ∈ (driveDirLoop removable w ds).2, e.isWrite = false := by
  intro ds
  induction ds with
  | nil =>
    intro w e he
    simp [driveDirLoop] at he
  | cons d rest ih =>
    intro w e he
    simp only [driveDirLoop, List.mem_cons] at he
    rcases he with rfl | he'
    · rfl
    · exact ih _ e he'

theorem cleanupRemaining_go_no_write :
    ∀ ps st, ∀ e ∈ (cleanupRemaining.go st ps).2.2, e.isWrite = false := by
  intro ps
  induction ps with
  | nil =>
    intro st e he
    simp [cleanupRemaining.go] at he
  | cons p rest ih =>
    intro st e he
    by_cases hp : fsIsFile st p = true
    · simp only [cleanupRemaining.go] at he
      rw [if_pos hp] at he
      rcases List.mem_cons.mp he with rfl | he'
      · rfl
      · exact ih _ e he'
    · simp only [cleanupRemaining.go] at he
      rw [if_neg hp] at he
      exact ih _ e he

/-- C4. In the non-USB branch of `wipe_drive`, the per-file overwrite step of
`_wipe_file_enhanced` always raises — it calls `_secure_overwrite_file` with the
keyword arguments `passes` and `pattern`, which `_secure_overwrite_file` does not
accept — so for every file that exists when it is visited the exception branch
runs: the file is force-removed without any overwrite of its contents (no write
event occurs anywhere in the branch) and its per-file result has status
`'removed_without_overwrite'`. -/
theorem c4_enhanced_wipe_never_overwrites (hash : Bytes → Bytes) (rnd : Nat → Nat)
    (plat : Platform) (removable : String → Bool) (w : World) (drivePath : String)
    (driveType : DriveType) (fileWalk dirWalk : List String) (method : Method)
    (verify : Bool)
    (hex : (fsIsFile ⟨w.files⟩ drivePath || w.dirs.contains drivePath) = true)
    (hnb : blockedCheck plat drivePath = false)
    (hnu : driveType ≠ DriveType.usbFlash) :
    kwargsAccepted secureOverwriteFileParams ["passes", "pattern"] = false ∧
    (∀ e ∈ (wipe_drive hash rnd plat removable w drivePath driveType fileWalk
        dirWalk method verify).2, e.isWrite = false) ∧
    (∃ rep, (wipe_drive hash rnd plat removable w drivePath driveType fileWalk
        dirWalk method verify).1 = Except.ok (DriveOutcome.standard rep) ∧
      ∀ p ∈ fileWalk, fsIsFile ⟨w.files⟩ p = true →
        (∃ oh, DriveEntry.fileRes p (EnhStatus.removedWithoutOverwrite oh) ∈
            rep.results) ∧
          Ev.removeFile p ∈ (wipe_drive hash rnd plat removable w drivePath
            driveType fileWalk dirWalk method verify).2) := by
  have hnu' : (driveType == DriveType.usbFlash) = false := by
    rw [beq_eq_false_iff_ne]
    exact hnu
  have hrw : wipe_drive hash rnd plat removable w drivePath driveType fileWalk
      dirWalk method verify =
    (let l := driveFileLoop hash rnd ⟨w.files⟩ fileWalk method verify
     let d := driveDirLoop removable { files := l.1.files, dirs := w.dirs } dirWalk
     let c := cleanupRemaining ⟨d.1.files⟩
     let ver := if verify then some (verify_drive_erasure c.1) else none
     (.ok (.standard
       { drivePath := drivePath, method := method, verifiedFlag := verify,
         results := l.2.1 ++ c.2.1, totalFilesFound := fileWalk.length,
         verification := ver, driveType := driveType }),
       l.2.2 ++ d.2 ++ c.2.2)) := by
    unfold wipe_drive
    rw [if_neg (by rw [hex]; simp), if_neg (by simp [hnb]), if_neg (by simp [hnu'])]
  have hloop := driveFileLoop_spec hash rnd method verify fileWalk ⟨w.files⟩
  refine ⟨rfl, ?_, ?_⟩
  · intro e he
    rw [hrw] at he
    simp only [List.mem_append] at he
    rcases he with (he | he) | he
    · exact hloop.1 e he
    · exact driveDirLoop_no_write removable dirWalk _ e he
    · exact cleanupRemaining_go_no_write _ _ e he
  · refine ⟨_, by rw [hrw], ?_⟩
    intro p hp hpex
    have hthis := hloop.2 p hp hpex
    constructor
    · exact ⟨hthis.1.choose, List.mem_append.mpr (Or.inl hthis.1.choose_spec)⟩
    · rw [hrw]
      simp only [List.mem_append]
      exact Or.inl (Or.inl hthis.2)

/-- Witness for `c4_enhanced_wipe_never_overwrites`: a two-file non-USB drive. -/
theorem c4_enhanced_wipe_never_overwrites_witness :
    kwargsAccepted secureOverwriteFileParams ["passes", "pattern"] = false ∧
    (∀ e ∈ (wipe_drive id (fun _ => 0) Platform.linux (fun _ => true)
        ⟨[("/mnt/u/a", [1, 2]), ("/mnt/u/b", [])], ["/mnt/u"]⟩ "/mnt/u"
        DriveType.hdd ["/mnt/u/a", "/mnt/u/b"] [] Method.dod true).2,
      e.isWrite = false) :=
  ⟨(c4_enhanced_wipe_never_overwrites id (fun _ => 0) Platform.linux (fun _ => true)
      ⟨[("/mnt/u/a", [1, 2]), ("/mnt/u/b", [])], ["/mnt/u"]⟩ "/mnt/u"
      DriveType.hdd ["/mnt/u/a", "/mnt/u/b"] [] Method.dod true (by rfl) (by rfl)
      (by simp)).1,
    (c4_enhanced_wipe_never_overwrites id (fun _ => 0) Platform.linux (fun _ => true)
      ⟨[("/mnt/u/a", [1, 2]), ("/mnt/u/b", [])], ["/mnt/u"]⟩ "/mnt/u"
      DriveType.hdd ["/mnt/u/a", "/mnt/u/b"] [] Method.dod true (by rfl) (by rfl)
      (by simp)).2.1⟩

/-- C7. Every raw device wipe invoked without administrator/root privileges
fails with the privileges-required `WipeError` before the device is opened, and
no byte of the device is written: the event trace is empty (no open, no write,
no flush). -/
theorem c7_privileges_required (rnd : Nat → Nat) (devicePath : String)
    (device : Bytes) (draws : List Nat) (method : Method) (verify : Bool) :
    raw_device_wipe false rnd devicePath device draws method verify =
      (Except.error WErr.privilegesRequired, []) := by
  rfl

/-- C9 (amended). `_verify_raw_device_wipe` takes exactly 10 windows of size
`min(1 MiB, total_size // 100)` at 512-byte-aligned offsets; a window after a
random final pass (including `dod`'s) passes iff it is neither all-zeros nor
all-0xFF — not a unique-byte-count test — and the outcome has `verified = true`
iff `samples_passed ≥ 8 = 0.8 · samples_total`. -/
theorem c9_device_verification (device : Bytes) (draws : List Nat)
    (expected : Pattern) (hd : 10 ≤ draws.length) :
    (verify_raw_device_wipe device draws expected).totalSamples = 10 ∧
    (draws.take 10).length = 10 ∧
    (verify_raw_device_wipe device draws expected).samplesVerified =
      (draws.take 10).countP (fun d => devWindowPass expected
        ((device.drop (d / 512 * 512)).take (min (1024 * 1024) (device.length / 100)))) ∧
    (∀ d, (d / 512 * 512) % 512 = 0) ∧
    ((verify_raw_device_wipe device draws expected).verified = true ↔
      8 ≤ (verify_raw_device_wipe device draws expected).samplesVerified) := by
  refine ⟨rfl, ?_, rfl, ?_, ?_⟩
  · rw [List.length_take]
    omega
  · intro d
    exact Nat.mul_mod_left _ _
  · simp [verify_raw_device_wipe]

/-- Witness for `c9_device_verification` on a concrete 1600-byte device. -/
theorem c9_device_verification_witness :
    (verify_raw_device_wipe ((List.range 1600).map (fun i => i % 2))
        (List.replicate 10 0) Pattern.random).totalSamples = 10 ∧
      ((List.replicate 10 0 : List Nat).take 10).length = 10 :=
  ⟨(c9_device_verification ((List.range 1600).map (fun i => i % 2))
      (List.replicate 10 0) Pattern.random (by simp)).1,
    (c9_device_verification ((List.range 1600).map (fun i => i % 2))
      (List.replicate 10 0) Pattern.random (by simp)).2.1⟩

set_option maxRecDepth 10000 in
/-- C9 counterexample: a 1600-byte device of alternating `0x00 0x01` bytes.  The
window size is `min(1 MiB, 1600 // 100) = 16`; every window read is
`[0,1,0,1,...]`, neither all-zeros nor all-0xFF, so `_verify_raw_device_wipe`
passes all 10 samples and reports `verified = true` — yet each window has only
2 unique byte values, which does not exceed `16 // 8 = 2`, so under the claim's
12.5%-unique-byte rule every sample fails and verification would be false. -/
theorem c9_counterexample :
    (verify_raw_device_wipe ((List.range 1600).map (fun i => i % 2))
        (List.replicate 10 0) Pattern.random).verified = true ∧
      claimC9Verified ((List.range 1600).map (fun i => i % 2))
        (List.replicate 10 0) = false := by
  constructor
  · decide
  · decide

theorem secure_rename_file_no_dirattempt (names : List String) :
    ∀ st path, ∀ e ∈ (secure_rename_file st path names).2.2, e.isDirAttempt = false := by
  induction names with
  | nil =>
    intro st path e he
    simp [secure_rename_file] at he
  | cons n rest ih =>
    intro st path e he
    simp only [secure_rename_file] at he
    cases hr : renameF st path n with
    | none =>
      rw [hr] at he
      simp at he
    | some st' =>
      rw [hr] at he
      simp only [List.mem_cons] at he
      rcases he with rfl | he'
      · rfl
      · exact ih st' n e he'

theorem wipe_file_no_dirattempt (hash : Bytes → Bytes) (rnd : Nat → Nat)
    (offsets : List Nat) (names1 names2 : List String) (st : St) (path : String)
    (method : Method) (verify : Bool) :
    ∀ e ∈ (wipe_file hash rnd offsets names1 names2 st path method verify).2.1,
      e.isDirAttempt = false := by
  intro e he
  have hover : ∀ e ∈ (secure_overwrite_file hash rnd offsets names1 st path
      method verify).2.1, e.isDirAttempt = false := by
    intro x hx
    unfold secure_overwrite_file at hx
    cases hl : lookupFile st path with
    | none =>
      rw [hl] at hx
      simp at hx
    | some content =>
      rw [hl] at hx
      simp only at hx
      by_cases hz : content.length = 0
      · rw [if_pos hz] at hx
        simp at hx
      · rw [if_neg hz] at hx
        simp only [List.mem_append] at hx
        rcases hx with hx | hx
        · simp only [List.mem_flatMap, List.mem_map] at hx
          obtain ⟨pc, _, _, _, hxe⟩ := hx
          rw [← hxe]
          rfl
        · exact secure_rename_file_no_dirattempt names1 _ path x hx
  unfold wipe_file at he
  cases hl : lookupFile st path with
  | none =>
    rw [hl] at he
    simp at he
  | some content =>
    rw [hl] at he
    simp only at he
    have hforce : ∀ x ∈ (force_remove_file
        (secure_rename_file (secure_overwrite_file hash rnd offsets names1 st
          path method verify).1 path names2).1
        (secure_rename_file (secure_overwrite_file hash rnd offsets names1 st
          path method verify).1 path names2).2.1).2, x.isDirAttempt = false := by
      intro x hx
      unfold force_remove_file at hx
      split at hx
      · simp only [List.mem_singleton] at hx
        rw [hx]
        rfl
      · simp at hx
    split at he <;>
    · simp only [List.mem_append] at he
      rcases he with (he | he) | he
      · exact hover e he
      · exact secure_rename_file_no_dirattempt names2 _ path e he
      · exact hforce e he

theorem folderFileLoop_no_dirattempt (hash : Bytes → Bytes) (rnd : Nat → Nat)
    (offsets : List Nat) (names : String → List String × List String)
    (method : Method) (verify : Bool) :
    ∀ walk st, ∀ e ∈ (folderFileLoop hash rnd offsets names st walk method verify).2.2,
      e.isDirAttempt = false := by
  intro walk
  induction walk with
  | nil =>
    intro st e he
    simp [folderFileLoop] at he
  | cons p rest ih =>
    intro st e he
    simp only [folderFileLoop, List.mem_append] at he
    rcases he with he | he
    · exact wipe_file_no_dirattempt hash rnd offsets (names p).1 (names p).2 st p
        method verify e he
    · exact ih _ e he

theorem folderFileLoop_covers (hash : Bytes → Bytes) (rnd : Nat → Nat)
    (offsets : List Nat) (names : String → List String × List String)
    (method : Method) (verify : Bool) :
    ∀ walk st, ∀ p ∈ walk,
      ∃ ent ∈ (folderFileLoop hash rnd offsets names st walk method verify).2.1,
        ent.path = p := by
  intro walk
  induction walk with
  | nil =>
    intro st p hp
    simp at hp
  | cons q rest ih =>
    intro st p hp
    rcases List.mem_cons.mp hp with rfl | hp'
    · refine ⟨_, List.mem_cons_self _ _, ?_⟩
      cases hres : (wipe_file hash rnd offsets (names p).1 (names p).2 st p
          method verify).2.2 <;> simp [folderFileLoop, hres, FolderEntry.path]
    · obtain ⟨ent, hent, hpath⟩ := ih _ p hp'
      exact ⟨ent, List.mem_cons_of_mem _ hent, hpath⟩

theorem driveDirLoop_all_dirattempt (removable : String → Bool) :
    ∀ ds w, ∀ e ∈ (driveDirLoop removable w ds).2, e.isDirAttempt = true := by
  intro ds
  induction ds with
  | nil =>
    intro w e he
    simp [driveDirLoop] at he
  | cons d rest ih =>
    intro w e he
    simp only [driveDirLoop, List.mem_cons] at he
    rcases he with rfl | he'
    · rfl
    · exact ih _ e he'

/-- C8 (amended). For every folder wipe: every walked regular file is attempted
(it gets an entry in the results, from `wipe_file` run in the first pass) before
any directory is removed (no directory-removal attempt precedes the file phase:
the trace splits into file events, then directory attempts); the root directory
is removed last (the trace's final event is the removal attempt on the root);
and if the root directory still exists at the end, the failure is recorded as an
error entry for the root in the returned results — `wipe_folder` catches its own
raised `WipeError` and still returns the results normally instead of failing. -/
theorem c8_folder_wipe_order (hash : Bytes → Bytes) (rnd : Nat → Nat)
    (offsets : List Nat) (names : String → List String × List String)
    (removable : String → Bool) (w : World) (root : String)
    (fileWalk dirWalk : List String) (method : Method) (verify : Bool)
    (hroot : w.dirs.contains root = true) :
    ∃ w2 results evsA evsB,
      wipe_folder hash rnd offsets names removable w root fileWalk dirWalk
          method verify =
        Except.ok (w2, results, evsA ++ evsB ++ [Ev.removeDirAttempt root]) ∧
      (∀ e ∈ evsA, e.isDirAttempt = false) ∧
      (∀ e ∈ evsB, e.isDirAttempt = true) ∧
      (∀ p ∈ fileWalk, ∃ ent ∈ results, ent.path = p) ∧
      ((fsIsFile ⟨w2.files⟩ root || w2.dirs.contains root) = true →
        FolderEntry.rootErr root ("Failed to completely remove directory: " ++ root)
          ∈ results) := by
  have hex : (fsIsFile ⟨w.files⟩ root || w.dirs.contains root) = true := by
    rw [hroot, Bool.or_true]
  unfold wipe_folder
  rw [if_neg (by rw [hex]; simp), if_neg (by rw [hroot]; simp)]
  set l := folderFileLoop hash rnd offsets names ⟨w.files⟩ fileWalk method verify with hl
  set d := driveDirLoop removable { files := l.1.files, dirs := w.dirs } dirWalk with hd
  set w2 := forceRemoveDir removable d.1 root with hw2
  by_cases hfin : (fsIsFile ⟨w2.files⟩ root || w2.dirs.contains root) = true
  · refine ⟨w2, l.2.1 ++
        [FolderEntry.rootErr root ("Failed to completely remove directory: " ++ root)],
      l.2.2, d.2, ?_, ?_, ?_, ?_, ?_⟩
    · rw [if_pos hfin]
    · intro e he
      exact folderFileLoop_no_dirattempt hash rnd offsets names method verify
        fileWalk ⟨w.files⟩ e he
    · intro e he
      exact driveDirLoop_all_dirattempt removable dirWalk _ e he
    · intro p hp
      obtain ⟨ent, hent, hpath⟩ := folderFileLoop_covers hash rnd offsets names
        method verify fileWalk ⟨w.files⟩ p hp
      exact ⟨ent, List.mem_append.mpr (Or.inl hent), hpath⟩
    · intro _
      exact List.mem_append.mpr (Or.inr (List.mem_singleton.mpr rfl))
  · refine ⟨w2, l.2.1, l.2.2, d.2, ?_, ?_, ?_, ?_, ?_⟩
    · rw [if_neg hfin]
    · intro e he
      exact folderFileLoop_no_dirattempt hash rnd offsets names method verify
        fileWalk ⟨w.files⟩ e he
    · intro e he
      exact driveDirLoop_all_dirattempt removable dirWalk _ e he
    · exact folderFileLoop_covers hash rnd offsets names method verify fileWalk ⟨w.files⟩
    · intro hcontra
      exact absurd hcontra hfin

/-- Witness for `c8_folder_wipe_order`: a folder with one file, fully removable. -/
theorem c8_folder_wipe_order_witness :
    ∃ w2 results evsA evsB,
      wipe_folder id (fun _ => 9) [0]
          (fun _ => (["/r/x1", "/r/x2", "/r/x3"], ["/r/y1", "/r/y2", "/r/y3"]))
          (fun _ => true) ⟨[("/r/f", [3])], ["/r"]⟩ "/r" ["/r/f"] []
          Method.quick true =
        Except.ok (w2, results, evsA ++ evsB ++ [Ev.removeDirAttempt "/r"]) ∧
      (∀ e ∈ evsA, e.isDirAttempt = false) ∧
      (∀ e ∈ evsB, e.isDirAttempt = true) ∧
      (∀ p ∈ ["/r/f"], ∃ ent ∈ results, ent.path = p) ∧
      ((fsIsFile ⟨w2.files⟩ "/r" || w2.dirs.contains "/r") = true →
        FolderEntry.rootErr "/r" ("Failed to completely remove directory: " ++ "/r")
          ∈ results) :=
  c8_folder_wipe_order id (fun _ => 9) [0]
    (fun _ => (["/r/x1", "/r/x2", "/r/x3"], ["/r/y1", "/r/y2", "/r/y3"]))
    (fun _ => true) ⟨[("/r/f", [3])], ["/r"]⟩ "/r" ["/r/f"] [] Method.quick true
    (by rfl)

/-- C8 counterexample to "fails with DirectoryNotRemoved": with an unremovable
root (`removable` always false), the root still exists at the end, yet
`wipe_folder` returns `.ok` — the results merely contain the root error entry;
no failure is raised to the caller. -/
theorem c8_counterexample :
    (wipe_folder id (fun _ => 9) [0]
        (fun _ => (["/r/x1", "/r/x2", "/r/x3"], ["/r/y1", "/r/y2", "/r/y3"]))
        (fun _ => false) ⟨[("/r/f", [3])], ["/r"]⟩ "/r" ["/r/f"] []
        Method.quick true).isOk = true ∧
    (match wipe_folder id (fun _ => 9) [0]
        (fun _ => (["/r/x1", "/r/x2", "/r/x3"], ["/r/y1", "/r/y2", "/r/y3"]))
        (fun _ => false) ⟨[("/r/f", [3])], ["/r"]⟩ "/r" ["/r/f"] []
        Method.quick true with
      | Except.ok (w2, results, _) =>
        w2.dirs.contains "/r" &&
          results.contains
            (FolderEntry.rootErr "/r" "Failed to completely remove directory: /r")
      | Except.error _ => false) = true := by
  constructor
  · rfl
  · rfl

end DataWipe
